import Mathlib

/-!
# Verification of the ClinicalFlow data-harmonization & quality-scoring pipeline

Shallow embedding of the pipeline implemented in
`src/ingestion/multi_file_loader.py`, `src/metrics/metrics_engine.py`,
`src/metrics/dqi_calculator.py` and `src/config.py`.

Modelling conventions:
* a pandas DataFrame is a `List` of rows (record structures); pandas sorts
  groupby keys while this embedding keeps first-occurrence order — every
  statement proved here is a keyed lookup, a membership, a count or a sum,
  all invariant under row order;
* subject identifiers are `String` (the loader coerces them with
  `astype(str)` before every join);
* numeric cell values are `ℚ`; a cell that is null, or that
  `pd.to_numeric(..., errors='coerce')` turns into NaN, is `none : Option ℚ`;
* `.fillna(0)` is `Option.getD 0`; `.astype(int)` is truncation toward zero
  (`truncQ`);
* a sparse per-subject aggregate (`subject_id → count`) is an association
  list `List (String × ℚ)`; the aggregates produced by the pipeline have
  pairwise-distinct keys (`keys_nodup_keyed` below), under which a pandas
  left merge is exactly a first-match lookup with default fill (`lookupD`).
-/

namespace ClinicalFlow

/-! ## Generic table helpers -/

/-- Keep the first occurrence of every element not already seen. -/
def dedupFirstAux (seen : List String) : List String → List String
  | [] => []
  | a :: l => if seen.contains a then dedupFirstAux seen l else a :: dedupFirstAux (a :: seen) l

/-- Keep the first occurrence of every element, drop later duplicates.
This is the semantics of `DataFrame.drop_duplicates` (keep='first') and of
the key set of a `groupby`. -/
def dedupFirst (l : List String) : List String :=
  dedupFirstAux [] l

/-- First-match lookup in an association list, with default `0`: the value a
pandas left merge (on unique right keys) followed by `.fillna(0)` assigns. -/
def lookupD (agg : List (String × ℚ)) (s : String) : ℚ :=
  ((agg.find? (fun p => p.1 == s)).map Prod.snd).getD 0

/-- `df.groupby(subject_col).size()` : one row per distinct subject, carrying
the number of input rows for that subject (as a numeric value). -/
def groupCountQ (subs : List String) : List (String × ℚ) :=
  (dedupFirst subs).map (fun s => (s, (subs.count s : ℚ)))

/-- `.astype(int)` on a (float) numeric value: truncation toward zero. -/
def truncQ (q : ℚ) : ℤ :=
  if q < 0 then -⌊-q⌋ else ⌊q⌋

/-- First-of-two on `Option` (used to state lookup characterizations). -/
def optOr (a b : Option String) : Option String :=
  match a with
  | some v => some v
  | none => b

/-! ## Consolidation (`MultiFileDataLoader._join_all_metrics`, lines 562-609)

`subject_master` is reduced to its (string-coerced) subject-id column; each
of the five domain aggregates is an association list. An empty aggregate
DataFrame makes the loader set the metric column to the literal `0`;
otherwise it left-merges and then runs `.fillna(0).astype(int)`. -/

structure Consolidated where
  subject_id : String
  missing_visits : ℤ
  missing_pages : ℤ
  open_queries : ℤ
  pending_sdv : ℤ
  open_safety_issues : ℤ
deriving DecidableEq

/-- One metric column value for one master subject after the left join:
`0` if the aggregate DataFrame was empty, else merge-lookup, NaN→0, int. -/
def joinMetric (agg : List (String × ℚ)) (s : String) : ℤ :=
  if agg.isEmpty then 0 else truncQ (lookupD agg s)

/-- `_join_all_metrics`: left-join all five aggregates onto the master
subject list. Every metric column is always present, integer-valued and
never null by construction (the `ℤ` field type captures exactly what
`.fillna(0).astype(int)` guarantees). -/
def joinAllMetrics (master : List String)
    (missingVisitsAgg missingPagesAgg openQueriesAgg pendingSdvAgg safetyAgg :
      List (String × ℚ)) : List Consolidated :=
  master.map (fun s =>
    { subject_id := s
      missing_visits := joinMetric missingVisitsAgg s
      missing_pages := joinMetric missingPagesAgg s
      open_queries := joinMetric openQueriesAgg s
      pending_sdv := joinMetric pendingSdvAgg s
      open_safety_issues := joinMetric safetyAgg s })

/-! ## Clean-patient classifier

Loader variant: `MultiFileDataLoader._calculate_clean_patient_flag`
(lines 611-638), a vectorized conjunction of five equality tests.
Metrics-engine variant: `MetricsEngine.assess_clean_patient_status`
(lines 316-353), a per-row check that coerces each present criterion value
with `pd.to_numeric(errors='coerce')`, replaces NaN by 0, and fails the
subject as soon as a value exceeds the 0 threshold. Both are total pure
functions (no exception paths). -/

def cleanFlag (r : Consolidated) : Bool :=
  r.missing_visits == 0 && r.missing_pages == 0 && r.open_queries == 0 &&
  r.pending_sdv == 0 && r.open_safety_issues == 0

/-- Step 8 of `load_study_data`: annotate every consolidated row with its
`is_clean_patient` flag. -/
def calculateCleanPatientFlag (t : List Consolidated) : List (Consolidated × Bool) :=
  t.map (fun r => (r, cleanFlag r))

/-- A row as seen by `assess_clean_patient_status`: for each of the five
criteria, outer `none` = the column is absent from the row's index; inner
`none` = the value is NaN after `pd.to_numeric(..., errors='coerce')`
(a null or non-numeric cell); `some (some q)` = the numeric value `q`. -/
structure AssessRow where
  missing_visits : Option (Option ℚ)
  missing_pages : Option (Option ℚ)
  open_queries : Option (Option ℚ)
  pending_sdv : Option (Option ℚ)
  open_safety_issues : Option (Option ℚ)
deriving DecidableEq

/-- One criterion of `assess_clean_patient_status`: an absent column is
skipped (compliant); a present value is coerced (NaN→0) and the subject
stays clean unless the value strictly exceeds the threshold 0. -/
def criterionOk : Option (Option ℚ) → Bool
  | none => true
  | some v => !(decide (v.getD 0 > 0))

def assess_clean_patient_status (r : AssessRow) : Bool :=
  criterionOk r.missing_visits && criterionOk r.missing_pages &&
  criterionOk r.open_queries && criterionOk r.pending_sdv &&
  criterionOk r.open_safety_issues

/-- The effective value the classifier compares against the threshold:
absent column → 0, NaN/invalid → 0, numeric value → itself. -/
def effVal : Option (Option ℚ) → ℚ
  | none => 0
  | some v => v.getD 0

/-- Replace every missing / invalid criterion cell by an explicit numeric 0
(what the claim describes as "coerced to 0 before comparison"). -/
def coerceRow (r : AssessRow) : AssessRow :=
  { missing_visits := some (some (effVal r.missing_visits))
    missing_pages := some (some (effVal r.missing_pages))
    open_queries := some (some (effVal r.open_queries))
    pending_sdv := some (some (effVal r.pending_sdv))
    open_safety_issues := some (some (effVal r.open_safety_issues)) }

def assessNonneg (r : AssessRow) : Prop :=
  0 ≤ effVal r.missing_visits ∧ 0 ≤ effVal r.missing_pages ∧
  0 ≤ effVal r.open_queries ∧ 0 ≤ effVal r.pending_sdv ∧
  0 ≤ effVal r.open_safety_issues

def assessAllZero (r : AssessRow) : Prop :=
  effVal r.missing_visits = 0 ∧ effVal r.missing_pages = 0 ∧
  effVal r.open_queries = 0 ∧ effVal r.pending_sdv = 0 ∧
  effVal r.open_safety_issues = 0

instance (r : AssessRow) : Decidable (assessNonneg r) := by
  unfold assessNonneg; infer_instance

instance (r : AssessRow) : Decidable (assessAllZero r) := by
  unfold assessAllZero; infer_instance

/-! ## Subject master (`MultiFileDataLoader._load_subject_master`, lines 104-170)

The master keeps the raw subject-id column and runs
`drop_duplicates(subset=['subject_id'])` (keep-first). No trimming or other
normalization of identifier values happens anywhere in the loader; the only
coercion is `astype(str)` at join time (identity on strings). -/

def loadSubjectMasterIds (vals : List String) : List String :=
  dedupFirst vals

/-! ## Missing-pages aggregation
(`MultiFileDataLoader._aggregate_missing_pages`, lines 265-351)

A row of the missing-pages report carries a subject id, a visit name and a
form/folder identifier. `hasFormCol` / `hasVisitCol` record whether the
column-scan found a form (resp. visit) column in the report's headers. -/

structure PageRow where
  subject : String
  visit : String
  form : String
deriving DecidableEq

/-- `df[~df[form_cols[0]].isin(inactivated_forms)]`, applied only when a
form column was found and the inactivated-forms set is non-empty. -/
def inactivationExcluded (hasFormCol : Bool) (inact : List String)
    (rows : List PageRow) : List PageRow :=
  if hasFormCol && !inact.isEmpty then
    rows.filter (fun r => !(inact.contains r.form))
  else rows

/-- The `_key` used to match a missing-page row against the due-visit list:
`subject.astype(str) + '_' + visit.astype(str)`. -/
def pageKey (s v : String) : String := s ++ "_" ++ v

/-- Restriction of the missing-pages rows to due visits. -/
def dueFilter (due : List (String × String)) (rows : List PageRow) : List PageRow :=
  rows.filter (fun r => (due.map (fun p => pageKey p.1 p.2)).contains (pageKey r.subject r.visit))

/-- `_aggregate_missing_pages`: inactivation exclusion, then the due-visit
filter; if that filter eliminates every row, reload the report and re-apply
only the inactivation exclusion (the logged fallback); finally count rows
per subject. -/
def aggMissingPages (rows : List PageRow) (hasFormCol hasVisitCol : Bool)
    (inact : List String) (due : List (String × String)) : List (String × ℚ) :=
  let df := inactivationExcluded hasFormCol inact rows
  let df2 :=
    if !due.isEmpty then
      if hasVisitCol then
        let filtered := dueFilter due df
        if filtered.isEmpty then inactivationExcluded hasFormCol inact rows
        else filtered
      else df
    else df
  if df2.isEmpty then [] else groupCountQ (df2.map PageRow.subject)

/-! ## Open-queries aggregation
(`MultiFileDataLoader._aggregate_open_queries`, lines 419-496) -/

/-- A row of the EDRR issue report: subject id plus the cell of the explicit
open-count column (if such a column exists). Outer `none` = null cell
(skipped by `GroupBy.first`); `some none` = a non-numeric cell (kept by
`first`, then coerced to NaN by `to_numeric` and to 0 by `fillna`);
`some (some q)` = numeric value `q`. -/
structure EdrrRow where
  subject : String
  openCount : Option (Option ℚ)
deriving DecidableEq

/-- EDRR source: if a column whose name contains "open" and "count" exists,
take the first (non-null) count value per subject, coercing to 0 when
invalid/absent; otherwise count rows per subject. -/
def edrrAgg (hasCountCol : Bool) (rows : List EdrrRow) : List (String × ℚ) :=
  if hasCountCol then
    (dedupFirst (rows.map EdrrRow.subject)).map (fun s =>
      (s, ((((rows.filter (fun r => r.subject == s)).filterMap EdrrRow.openCount).head?).bind id).getD 0))
  else groupCountQ (rows.map EdrrRow.subject)

/-- A row of a coding report (MedDRA / WHODD) that has both a subject column
and a `Coding Status` column (files lacking either contribute nothing). -/
structure CodingRow where
  subject : String
  codingStatus : String
deriving DecidableEq

/-- Outer-merge all per-source aggregates on `subject_id`, `fillna(0)`, and
sum the query columns row-wise; an empty source list returns the empty
aggregate. Each input aggregate has pairwise-distinct keys, so the merged
row for a subject carries exactly one value (or NaN→0) per source. -/
def combineQueries (aggs : List (List (String × ℚ))) : List (String × ℚ) :=
  match aggs with
  | [] => []
  | a :: rest =>
    let subs := dedupFirst ((a :: rest).foldl (fun acc ag => acc ++ ag.map Prod.fst) [])
    subs.map (fun s => (s, ((a :: rest).map (fun ag => lookupD ag s)).sum))

/-- `_aggregate_open_queries`: EDRR issues (count column if present, else
row count), SAE dashboard row counts, and per coding file the row counts of
terms whose `Coding Status` is not `"Coded Term"` (a file with no uncoded
rows appends nothing); the per-source aggregates are then outer-merged and
summed. `none` models an absent source file. -/
def aggOpenQueries (edrr : Option (Bool × List EdrrRow)) (sae : Option (List String))
    (coding : List (List CodingRow)) : List (String × ℚ) :=
  let l1 : List (List (String × ℚ)) :=
    match edrr with
    | some (hc, rows) => [edrrAgg hc rows]
    | none => []
  let l2 : List (List (String × ℚ)) :=
    match sae with
    | some subs => [groupCountQ subs]
    | none => []
  let l3 : List (List (String × ℚ)) :=
    coding.filterMap (fun f =>
      let uncoded := f.filter (fun r => !(r.codingStatus == "Coded Term"))
      if uncoded.isEmpty then none
      else some (groupCountQ (uncoded.map CodingRow.subject)))
  combineQueries (l1 ++ l2 ++ l3)

/-- What the EDRR source contributes to one subject's `open_queries`. -/
def edrrContrib : Option (Bool × List EdrrRow) → String → ℚ
  | none, _ => 0
  | some (true, rows), s =>
      ((((rows.filter (fun r => r.subject == s)).filterMap EdrrRow.openCount).head?).bind id).getD 0
  | some (false, rows), s => ((rows.map EdrrRow.subject).count s : ℚ)

/-- What the SAE dashboard contributes to one subject's `open_queries`. -/
def saeContrib : Option (List String) → String → ℚ
  | none, _ => 0
  | some subs, s => (subs.count s : ℚ)

/-- What the coding reports contribute to one subject's `open_queries`:
the total number of that subject's rows whose status is not `"Coded Term"`. -/
def codingContrib (coding : List (List CodingRow)) (s : String) : ℚ :=
  (coding.map (fun f =>
    (((f.filter (fun r => !(r.codingStatus == "Coded Term"))).map CodingRow.subject).count s : ℚ))).sum

/-! ## Pending-SDV aggregation
(`MultiFileDataLoader._aggregate_pending_sdv`, lines 498-529)

When the EDC metrics file has a recognizable SDV pending/incomplete column,
the aggregate keeps every row (no groupby) with
`pd.to_numeric(errors='coerce').fillna(0)`; otherwise it is empty. -/

structure SdvRow where
  subject : String
  sdvVal : Option ℚ
deriving DecidableEq

def aggPendingSdv (hasSdvCol : Bool) (rows : List SdvRow) : List (String × ℚ) :=
  if hasSdvCol then rows.map (fun r => (r.subject, r.sdvVal.getD 0))
  else []

/-! ## DQI scoring engine (`dqi_calculator.py`) -/

/-- `DQI_WEIGHTS` from `config.py` (they sum to 1, so the constructor's
normalization pass leaves them unchanged). -/
def DQI_WEIGHTS : List (String × ℚ) :=
  [("safety_issues", 35/100), ("missing_visits", 25/100), ("open_queries", 20/100),
   ("missing_pages", 10/100), ("coding_delays", 5/100), ("sdv_incomplete", 5/100)]

/-- `self.weights.get(component, 1.0 / len(component_scores))`. -/
def weightFor (c : String) (n : ℚ) : ℚ :=
  ((DQI_WEIGHTS.find? (fun p => p.1 == c)).map Prod.snd).getD (1 / n)

/-- Python `round(x, 2)`. Modelled as rounding `100*x` to the nearest
integer (Mathlib's `round`); the tie-breaking convention (half-even for
Python floats) differs only on exact half-cent ties and no statement below
depends on it. -/
def round2 (q : ℚ) : ℚ := ((round (q * 100) : ℤ) : ℚ) / 100

/-- A subject row as seen by `calculate_component_scores`: `none` means the
column is absent from the row's index or holds NaN (the code tests
`col in subject_row.index and pd.notna(subject_row[col])`). -/
structure DqiRow where
  open_safety_issues : Option ℚ
  pct_missing_visits : Option ℚ
  missing_visits : Option ℚ
  open_queries : Option ℚ
  pct_missing_pages : Option ℚ
  missing_pages : Option ℚ
  sdv_complete : Option Bool
  completeness_score : Option ℚ
  query_resolution_rate : Option ℚ
deriving DecidableEq

/-- `calculate_component_scores` (lines 41-94), in dict insertion order. -/
def calculate_component_scores (r : DqiRow) : List (String × ℚ) :=
  (match r.open_safety_issues with
    | some v => [("safety_issues", max 0 (100 - v * 20))]
    | none => [])
  ++ (match r.pct_missing_visits, r.missing_visits with
    | some p, _ => [("missing_visits", max 0 (100 - p))]
    | none, some v => [("missing_visits", max 0 (100 - min 100 (v * 5)))]
    | none, none => [])
  ++ (match r.open_queries with
    | some v => [("open_queries", max 0 (100 - min 100 (v * 10)))]
    | none => [])
  ++ (match r.pct_missing_pages, r.missing_pages with
    | some p, _ => [("missing_pages", max 0 (100 - p))]
    | none, some v => [("missing_pages", max 0 (100 - min 100 (v * 2)))]
    | none, none => [])
  ++ (match r.sdv_complete with
    | some b => [("sdv_incomplete", if b then 100 else 50)]
    | none => [])
  ++ (match r.completeness_score with
    | some v => [("completeness", v)]
    | none => [])
  ++ (match r.query_resolution_rate with
    | some v => [("query_resolution", v)]
    | none => [])

/-- `calculate_dqi_score` (lines 96-127): `None` when no component exists
(or the used weights sum to 0), else the weighted average over the present
components, rounded to 2 decimals. -/
def calculate_dqi_score (scores : List (String × ℚ)) : Option ℚ :=
  if scores.isEmpty then none
  else
    let n : ℚ := (scores.length : ℚ)
    let totalWeight := (scores.map (fun p => weightFor p.1 n)).sum
    let totalScore := (scores.map (fun p => p.2 * weightFor p.1 n)).sum
    if totalWeight = 0 then none
    else some (round2 (if 0 < totalWeight then totalScore / totalWeight else 0))

/-- `RISK_THRESHOLDS` from `config.py`. -/
def RISK_THRESHOLDS_high : ℚ := 70

def RISK_THRESHOLDS_medium : ℚ := 85

/-- `classify_risk_level` (lines 129-144). -/
def classify_risk_level (dqi : ℚ) : String :=
  if RISK_THRESHOLDS_medium ≤ dqi then "Low"
  else if RISK_THRESHOLDS_high ≤ dqi then "Medium"
  else "High"

/-- The risk assignment of `calculate_subject_dqi` (line 169):
`classify_risk_level(dqi) if dqi is not None else "Unknown"`. -/
def riskOf : Option ℚ → String
  | none => "Unknown"
  | some q => classify_risk_level q

/-- The precondition under which the upstream pipeline hands rows to the DQI
engine: raw metrics (and the percentage columns derived from them) are
non-negative, and the two pass-through components — `completeness_score`
(clipped to [0,100] by `calculate_completeness_metrics`, line 155) and
`query_resolution_rate` (a percentage of non-negative counts,
`calculate_query_metrics`, lines 195-199) — lie in [0,100]. -/
def DqiRowBounded (r : DqiRow) : Prop :=
  (∀ v, r.open_safety_issues = some v → 0 ≤ v) ∧
  (∀ v, r.pct_missing_visits = some v → 0 ≤ v) ∧
  (∀ v, r.missing_visits = some v → 0 ≤ v) ∧
  (∀ v, r.open_queries = some v → 0 ≤ v) ∧
  (∀ v, r.pct_missing_pages = some v → 0 ≤ v) ∧
  (∀ v, r.missing_pages = some v → 0 ≤ v) ∧
  (∀ v, r.completeness_score = some v → 0 ≤ v ∧ v ≤ 100) ∧
  (∀ v, r.query_resolution_rate = some v → 0 ≤ v ∧ v ≤ 100)

/-! ## Column resolver (`MetricsEngine.standardize_column_names`, lines 34-84) -/

/-- Drop leading whitespace characters. -/
def dropLeadingWS : List Char → List Char
  | [] => []
  | c :: cs => if c.isWhitespace then dropLeadingWS cs else c :: cs

/-- Python `str.strip()` on the character list: drop leading and trailing
whitespace. -/
def trimChars (cs : List Char) : List Char :=
  (dropLeadingWS (dropLeadingWS cs.reverse).reverse)

/-- Python `str.strip()` (kernel-computable model of `String.trim`). -/
def trimStr (s : String) : String := String.mk (trimChars s.data)

/-- Python `str.lower()` (kernel-computable model of `String.toLower`). -/
def lowerStr (s : String) : String := String.mk (s.data.map Char.toLower)

/-- `str(col).strip().lower()`. -/
def normHeader (s : String) : String := lowerStr (trimStr s)

/-- Whether the first list is a prefix of the second. -/
def sublistAt : List Char → List Char → Bool
  | [], _ => true
  | _ :: _, [] => false
  | a :: as, b :: bs => a == b && sublistAt as bs

/-- Whether the first list occurs contiguously inside the second
(Python's `needle in hay` on strings). -/
def containsSub (needle : List Char) : List Char → Bool
  | [] => needle.isEmpty
  | b :: bs => sublistAt needle (b :: bs) || containsSub needle bs

/-- Pass-1 test: exact case-insensitive match of the (stripped) header
against any variant. -/
def exactHit (col : String) (vars : List String) : Bool :=
  vars.any (fun v => normHeader col == lowerStr v)

/-- Pass-2 test: some variant is a complete substring of the (stripped,
lowered) header and is longer than the minimum threshold 3. -/
def subHit (col : String) (vars : List String) : Bool :=
  vars.any (fun v =>
    containsSub (lowerStr v).data (normHeader col).data && decide (3 < (lowerStr v).length))

/-- Processing of one header for one synonym-table entry inside a pass:
`if col in renamed_cols: continue`, then record `col ↦ standard_name` when
the pass's match test fires. Dict insertion is modelled by appending. -/
def passStep (hit : String → List String → Bool) (sn : String) (vars : List String)
    (acc : List (String × String)) (col : String) : List (String × String) :=
  if acc.any (fun q => q.1 == col) then acc
  else if hit col vars then acc ++ [(col, sn)]
  else acc

/-- One full pass: iterate the synonym table in declaration order and, for
each entry, all headers (the loop nesting of lines 54-64 and 68-81). -/
def passFold (hit : String → List String → Bool) (table : List (String × List String))
    (cols : List String) (init : List (String × String)) : List (String × String) :=
  table.foldl (fun acc p => cols.foldl (passStep hit p.1 p.2) acc) init

/-- `standardize_column_names`'s rename dict: pass 1 (exact) over the whole
header set, then pass 2 (substring) over the headers still unmapped. -/
def standardizeRenames (table : List (String × List String)) (cols : List String) :
    List (String × String) :=
  passFold subHit table cols (passFold exactHit table cols [])

/-- Lookup of a header in the rename dict. -/
def lookupName (m : List (String × String)) (col : String) : Option String :=
  (m.find? (fun q => q.1 == col)).map Prod.snd

/-- Specification-side characterization (from the claim's words): a header
resolves to the first-declared canonical name with an exact
case-insensitive variant match; failing that, to the first-declared
canonical name with a qualifying (complete, length > 3) substring variant
match; else it stays unmapped. -/
def resolveHeaderSpec (table : List (String × List String)) (col : String) : Option String :=
  match table.find? (fun p => exactHit col p.2) with
  | some p => some p.1
  | none => (table.find? (fun p => subHit col p.2)).map Prod.fst

/-- `COLUMN_MAPPINGS` from `config.py` (declaration order preserved). -/
def COLUMN_MAPPINGS : List (String × List String) :=
  [("subject_id", ["Subject ID", "Subject", "SubjectID", "Patient ID", "SUBJID", "subject_id"]),
   ("site_id", ["Site ID", "Site", "SiteID", "Site Number", "site_id"]),
   ("study_id", ["Study ID", "Study", "StudyID", "Protocol", "Project Name"]),
   ("visit_name", ["Visit", "Visit Name", "VisitName", "Latest Visit"]),
   ("region", ["Region"]),
   ("country", ["Country"]),
   ("status", ["Status", "Subject Status", "SubjectStatus"]),
   ("missing_visits", ["Missing Visits", "Input files - Missing Visits"]),
   ("missing_pages", ["Missing Page", "Missing Pages", "Input files - Missing Page"]),
   ("open_queries", ["# Open Queries", "Open Queries", "#Total Queries", "# DM Queries", "Total Queries"]),
   ("closed_queries", ["# Closed Queries", "Closed Queries"]),
   ("total_queries", ["#Total Queries", "Total Queries", "#Total"]),
   ("coded_terms", ["# Coded terms", "Coded terms"]),
   ("uncoded_terms", ["# Uncoded Terms", "Uncoded Terms"]),
   ("open_lnr_issues", ["# Open issues in LNR", "Open LNR"]),
   ("inactivated_forms", ["Inactivated forms and folders", "Inactivated Forms"]),
   ("sae_review", ["# eSAE dashboard review for DM", "SAE Review"]),
   ("broken_signatures", ["Broken Signatures"]),
   ("never_signed", ["CRFs Never Signed", "Never Signed"]),
   ("pages_entered", ["# Pages Entered", "Pages Entered"]),
   ("expected_visits", ["# Expected Visits", "Expected Visits"]),
   ("forms_verified", ["# Forms Verified", "Forms Verified"]),
   ("crfs_frozen", ["# CRFs Frozen", "CRFs Frozen"]),
   ("crfs_locked", ["# CRFs Locked", "CRFs Locked"])]

/-- `standardize_column_names` applied with the configured synonym table. -/
def standardize_column_names (cols : List String) : List (String × String) :=
  standardizeRenames COLUMN_MAPPINGS cols

/-! ## Site rollup (`MetricsEngine.calculate_site_performance_metrics`,
lines 267-314)

The consolidated subject table is grouped by `site_id`; pandas `groupby`
drops null keys, so subjects without a site join no group. -/

structure SubjectMetricsRow where
  subject_id : String
  site_id : Option String
  missing_visits : ℚ
  missing_pages : ℚ
  open_queries : ℚ
deriving DecidableEq

structure SiteMetricsRow where
  site_id : String
  subject_count : ℕ
  total_missing_visits : ℚ
  total_missing_pages : ℚ
  total_open_queries : ℚ
  performance_score : ℚ
deriving DecidableEq

/-- pandas `.clip(lo, hi)`. -/
def clipQ (lo hi q : ℚ) : ℚ := min hi (max lo q)

def calculate_site_performance_metrics (rows : List SubjectMetricsRow) :
    List SiteMetricsRow :=
  let sites := dedupFirst (rows.filterMap SubjectMetricsRow.site_id)
  sites.map (fun site =>
    let grp := rows.filter (fun r => r.site_id == some site)
    let mv := (grp.map SubjectMetricsRow.missing_visits).sum
    let mp := (grp.map SubjectMetricsRow.missing_pages).sum
    let oq := (grp.map SubjectMetricsRow.open_queries).sum
    { site_id := site
      subject_count := grp.length
      total_missing_visits := mv
      total_missing_pages := mp
      total_open_queries := oq
      performance_score :=
        clipQ 0 100 (100 - (mv * 2 + mp * 1 + oq * 3) / (grp.length : ℚ)) })

/-! # Theorems -/

/-! ## Generic helper lemmas -/

theorem mem_dedupFirstAux (x : String) :
    ∀ (l seen : List String), x ∈ dedupFirstAux seen l ↔ (x ∈ l ∧ x ∉ seen) := by
  intro l
  induction l with
  | nil => intro seen; simp [dedupFirstAux]
  | cons a l ih =>
    intro seen
    unfold dedupFirstAux
    by_cases hm : a ∈ seen
    · rw [if_pos (by simpa using hm), ih]
      constructor
      · rintro ⟨hx, hs⟩
        exact ⟨List.mem_cons_of_mem _ hx, hs⟩
      · rintro ⟨hx, hs⟩
        rcases List.mem_cons.mp hx with rfl | hx
        · exact absurd hm hs
        · exact ⟨hx, hs⟩
    · rw [if_neg (by simpa using hm)]
      by_cases hxa : x = a
      · subst hxa
        simp [hm]
      · simp only [List.mem_cons, hxa, false_or, ih]

theorem mem_dedupFirst (x : String) (l : List String) : x ∈ dedupFirst l ↔ x ∈ l := by
  unfold dedupFirst
  rw [mem_dedupFirstAux]
  simp

theorem nodup_dedupFirstAux :
    ∀ (l seen : List String), (dedupFirstAux seen l).Nodup := by
  intro l
  induction l with
  | nil => intro seen; simp [dedupFirstAux]
  | cons a l ih =>
    intro seen
    unfold dedupFirstAux
    by_cases hm : a ∈ seen
    · rw [if_pos (by simpa using hm)]
      exact ih seen
    · rw [if_neg (by simpa using hm)]
      refine List.nodup_cons.mpr ⟨?_, ih (a :: seen)⟩
      rw [mem_dedupFirstAux]
      rintro ⟨_, hs⟩
      exact hs (List.mem_cons_self a seen)

theorem nodup_dedupFirst (l : List String) : (dedupFirst l).Nodup :=
  nodup_dedupFirstAux l []

theorem dedupFirst_ne_nil {l : List String} (h : l ≠ []) : dedupFirst l ≠ [] := by
  cases l with
  | nil => exact absurd rfl h
  | cons a l =>
    unfold dedupFirst dedupFirstAux
    rw [if_neg (by simp)]
    exact List.cons_ne_nil _ _

theorem lookupD_nil (s : String) : lookupD [] s = 0 := rfl

theorem lookupD_eq_zero_of_not_mem {agg : List (String × ℚ)} {s : String}
    (h : ∀ p ∈ agg, p.1 ≠ s) : lookupD agg s = 0 := by
  unfold lookupD
  have : agg.find? (fun p => p.1 == s) = none := by
    rw [List.find?_eq_none]
    intro p hp
    simpa using h p hp
  rw [this]
  rfl

theorem lookupD_nonneg {agg : List (String × ℚ)} {s : String}
    (h : ∀ p ∈ agg, 0 ≤ p.2) : 0 ≤ lookupD agg s := by
  unfold lookupD
  cases hf : agg.find? (fun p => p.1 == s) with
  | none => simp
  | some p =>
    have := List.mem_of_find?_eq_some hf
    simpa using h p this

theorem lookupD_map_self (keys : List String) (f : String → ℚ) (s : String) :
    lookupD (keys.map (fun t => (t, f t))) s = if s ∈ keys then f s else 0 := by
  induction keys with
  | nil => simp [lookupD]
  | cons a l ih =>
    by_cases has : a = s
    · subst has
      unfold lookupD
      rw [List.map_cons, List.find?_cons_of_pos _ (by simp)]
      simp
    · unfold lookupD
      rw [List.map_cons, List.find?_cons_of_neg _ (by simp [has])]
      unfold lookupD at ih
      rw [ih]
      by_cases hsl : s ∈ l
      · simp [hsl]
      · have hne : ¬ s = a := fun h => has h.symm
        simp [hsl, hne]

theorem lookupD_groupCountQ (subs : List String) (s : String) :
    lookupD (groupCountQ subs) s = (subs.count s : ℚ) := by
  unfold groupCountQ
  rw [lookupD_map_self]
  by_cases h : s ∈ subs
  · simp [(mem_dedupFirst s subs).mpr h]
  · have h0 : subs.count s = 0 := List.count_eq_zero.mpr h
    by_cases hd : s ∈ dedupFirst subs
    · exact absurd ((mem_dedupFirst s subs).mp hd) h
    · simp [hd, h0]

theorem keys_nodup_keyed (l : List String) (f : String → ℚ) :
    (((dedupFirst l).map (fun s => (s, f s))).map Prod.fst).Nodup := by
  rw [List.map_map]
  have : (Prod.fst ∘ fun s => (s, f s)) = id := rfl
  rw [this, List.map_id]
  exact nodup_dedupFirst l

theorem keys_nodup_groupCountQ (subs : List String) :
    ((groupCountQ subs).map Prod.fst).Nodup :=
  keys_nodup_keyed subs _

theorem truncQ_nonneg {q : ℚ} (h : 0 ≤ q) : 0 ≤ truncQ q := by
  unfold truncQ
  rw [if_neg (not_lt.mpr h)]
  exact Int.floor_nonneg.mpr h

/-! ## C1 — clean-patient classifier -/

theorem cleanFlag_eq_true_iff (r : Consolidated) :
    cleanFlag r = true ↔
      (r.missing_visits = 0 ∧ r.missing_pages = 0 ∧ r.open_queries = 0 ∧
        r.pending_sdv = 0 ∧ r.open_safety_issues = 0) := by
  unfold cleanFlag
  simp only [Bool.and_eq_true, beq_iff_eq]
  tauto

theorem criterionOk_eq_true_iff (f : Option (Option ℚ)) :
    criterionOk f = true ↔ effVal f ≤ 0 := by
  cases f with
  | none => simp [criterionOk, effVal]
  | some v => simp [criterionOk, effVal, not_lt]

theorem criterionOk_coerce (f : Option (Option ℚ)) :
    criterionOk (some (some (effVal f))) = criterionOk f := by
  cases f with
  | none => simp [criterionOk, effVal]
  | some v => cases v <;> simp [criterionOk, effVal]

/-- C1: for every subject row of the consolidated table the
`is_clean_patient` flag is `true` iff all five raw metrics are exactly 0 —
regardless of whether a domain aggregate was empty (absent source) or
merely had no row for that subject; and the metrics-engine classifier
`assess_clean_patient_status` is a total function that treats every
missing/invalid criterion value as an explicit 0 (compliant) and, on
non-negative coerced values, likewise returns `true` iff all five
(coerced) metric values are exactly 0. -/
theorem clean_patient_rule_correct :
    (∀ (master : List String) (a1 a2 a3 a4 a5 : List (String × ℚ))
        (r : Consolidated) (b : Bool),
        (r, b) ∈ calculateCleanPatientFlag (joinAllMetrics master a1 a2 a3 a4 a5) →
        (b = true ↔ (r.missing_visits = 0 ∧ r.missing_pages = 0 ∧ r.open_queries = 0 ∧
          r.pending_sdv = 0 ∧ r.open_safety_issues = 0)))
    ∧ (∀ row : AssessRow,
        assess_clean_patient_status row = assess_clean_patient_status (coerceRow row))
    ∧ (∀ row : AssessRow, assessNonneg row →
        (assess_clean_patient_status row = true ↔ assessAllZero row)) := by
  refine ⟨?_, ?_, ?_⟩
  · intro master a1 a2 a3 a4 a5 r b hmem
    unfold calculateCleanPatientFlag at hmem
    rw [List.mem_map] at hmem
    obtain ⟨x, _, hx⟩ := hmem
    rw [Prod.ext_iff] at hx
    obtain ⟨rfl, rfl⟩ := hx
    exact cleanFlag_eq_true_iff x
  · intro row
    unfold assess_clean_patient_status coerceRow
    simp only [criterionOk_coerce]
  · intro row h
    obtain ⟨h1, h2, h3, h4, h5⟩ := h
    unfold assess_clean_patient_status assessAllZero
    simp only [Bool.and_eq_true, criterionOk_eq_true_iff]
    have e : ∀ x : ℚ, 0 ≤ x → (x ≤ 0 ↔ x = 0) :=
      fun x hx => ⟨fun h => le_antisymm h hx, fun h => h.le⟩
    rw [e _ h1, e _ h2, e _ h3, e _ h4, e _ h5]
    tauto

theorem clean_patient_rule_correct_witness :
    assessNonneg ⟨some (some 0), some none, none, some (some 2), some (some 0)⟩ ∧
      (assess_clean_patient_status
          ⟨some (some 0), some none, none, some (some 2), some (some 0)⟩ = true ↔
        assessAllZero ⟨some (some 0), some none, none, some (some 2), some (some 0)⟩) :=
  ⟨by decide, clean_patient_rule_correct.2.2 _ (by decide)⟩

/-! ## C4 — risk-tier thresholds -/

/-- C4: with the configured thresholds (high = 70, medium = 85), the risk
tier assigned by `calculate_subject_dqi` is `"Low"` iff the DQI is defined
and ≥ 85, `"Medium"` iff it is defined and in [70, 85), `"High"` iff it is
defined and < 70, and `"Unknown"` when the DQI is undefined. -/
theorem risk_tier_thresholds_correct (d : Option ℚ) :
    (riskOf d = "Low" ↔ ∃ q, d = some q ∧ 85 ≤ q) ∧
    (riskOf d = "Medium" ↔ ∃ q, d = some q ∧ 70 ≤ q ∧ q < 85) ∧
    (riskOf d = "High" ↔ ∃ q, d = some q ∧ q < 70) ∧
    (d = none → riskOf d = "Unknown") := by
  cases d with
  | none =>
    refine ⟨?_, ?_, ?_, fun _ => rfl⟩ <;> simp [riskOf]
  | some q =>
    simp only [riskOf, classify_risk_level, RISK_THRESHOLDS_high, RISK_THRESHOLDS_medium]
    refine ⟨?_, ?_, ?_, fun h => by cases h⟩
    · constructor
      · intro h
        split_ifs at h with h1 h2
        · exact ⟨q, rfl, h1⟩
        · exact absurd h (by decide)
        · exact absurd h (by decide)
      · rintro ⟨p, hp, h85⟩
        injection hp with hq
        subst hq
        rw [if_pos h85]
    · constructor
      · intro h
        split_ifs at h with h1 h2
        · exact absurd h (by decide)
        · exact ⟨q, rfl, h2, not_le.mp h1⟩
        · exact absurd h (by decide)
      · rintro ⟨p, hp, h70, h85⟩
        injection hp with hq
        subst hq
        rw [if_neg (not_le.mpr h85), if_pos h70]
    · constructor
      · intro h
        split_ifs at h with h1 h2
        · exact absurd h (by decide)
        · exact absurd h (by decide)
        · exact ⟨q, rfl, not_le.mp h2⟩
      · rintro ⟨p, hp, h70⟩
        injection hp with hq
        subst hq
        rw [if_neg (by linarith), if_neg (not_le.mpr h70)]

theorem risk_tier_thresholds_correct_witness :
    riskOf (some 90) = "Low" ∧ riskOf none = "Unknown" :=
  ⟨(risk_tier_thresholds_correct (some 90)).1.mpr ⟨90, rfl, by norm_num⟩,
   (risk_tier_thresholds_correct none).2.2.2 rfl⟩

/-! ## C9 — subject-identifier normalization -/

/-- C9 counterexample: the loader performs no whitespace trimming of
subject identifiers. The master built from raw ids `"S1"` and `" S1"`
keeps two distinct rows although the two identifiers agree after trimming,
and an aggregate keyed `"S1"` joins only the exactly-equal row (the
whitespace-variant row gets 0), refuting the claim that identifiers
differing only in surrounding whitespace join to the same subject. -/
theorem subject_id_no_trimming_counterexample :
    loadSubjectMasterIds ["S1", " S1"] = ["S1", " S1"] ∧
    trimStr "S1" = trimStr " S1" ∧
    (joinAllMetrics (loadSubjectMasterIds ["S1", " S1"])
        (groupCountQ ["S1"]) [] [] [] []).map
      (fun r => (r.subject_id, r.missing_visits)) = [("S1", 1), (" S1", 0)] := by
  refine ⟨by decide, by decide, by decide⟩

/-- C9 amended: subject identifiers are treated as opaque strings compared
by exact string equality after `astype(str)` coercion — no whitespace
trimming occurs, so identifiers differing in surrounding whitespace are
distinct subjects. The master contains exactly one row per unique raw
identifier (dedup is keep-first on exact equality), and the left join
produces exactly one consolidated row per master row, keyed by the exact
identifier. -/
theorem subject_id_exact_string_join (vals master : List String)
    (a1 a2 a3 a4 a5 : List (String × ℚ)) (s : String) :
    (loadSubjectMasterIds vals).Nodup ∧
    (s ∈ loadSubjectMasterIds vals ↔ s ∈ vals) ∧
    (joinAllMetrics master a1 a2 a3 a4 a5).map Consolidated.subject_id = master := by
  refine ⟨nodup_dedupFirst vals, mem_dedupFirst s vals, ?_⟩
  unfold joinAllMetrics
  rw [List.map_map]
  exact List.map_id' master

/-! ## C2 — consolidation invariants -/

/-- C2 counterexample: the join coerces to integer and fills nulls with 0
but does not enforce non-negativity; a pending-SDV source cell of `-2`
(read through `pd.to_numeric(...).fillna(0)`) reaches the consolidated
table unchanged, so the metric columns are not always non-negative. -/
theorem consolidated_nonneg_counterexample :
    (joinAllMetrics ["S1"] [] [] []
        (aggPendingSdv true [⟨"S1", some (-2)⟩]) []).map
      (fun r => r.pending_sdv) = [-2] ∧
    ¬ (∀ r ∈ joinAllMetrics ["S1"] [] [] []
        (aggPendingSdv true [⟨"S1", some (-2)⟩]) [],
        0 ≤ r.pending_sdv) := by
  refine ⟨by decide, by decide⟩

/-- C2 amended: after consolidation every subject row carries each of the
five metric columns as an integer, never null (the `ℤ` field of
`Consolidated`, produced by `fillna(0).astype(int)`); a subject absent
from a domain aggregate — in particular when that aggregate is entirely
empty — gets exactly 0 for that domain; and the metrics are non-negative
whenever the aggregate values are (which holds for all row-count-based
aggregates, but not for adversarial explicit count columns, see the
counterexample). -/
theorem consolidated_metrics_integer_default_zero
    (master : List String) (a1 a2 a3 a4 a5 : List (String × ℚ)) (s : String) :
    (∀ agg : List (String × ℚ), (∀ p ∈ agg, p.1 ≠ s) → joinMetric agg s = 0) ∧
    (joinMetric [] s = 0) ∧
    (∀ agg : List (String × ℚ), (∀ p ∈ agg, 0 ≤ p.2) → 0 ≤ joinMetric agg s) ∧
    (∀ r ∈ joinAllMetrics master a1 a2 a3 a4 a5,
        r.missing_visits = joinMetric a1 r.subject_id ∧
        r.missing_pages = joinMetric a2 r.subject_id ∧
        r.open_queries = joinMetric a3 r.subject_id ∧
        r.pending_sdv = joinMetric a4 r.subject_id ∧
        r.open_safety_issues = joinMetric a5 r.subject_id) := by
  refine ⟨?_, rfl, ?_, ?_⟩
  · intro agg h
    unfold joinMetric
    cases agg with
    | nil => rfl
    | cons p t =>
      rw [if_neg (by simp)]
      rw [lookupD_eq_zero_of_not_mem h]
      simp [truncQ]
  · intro agg h
    unfold joinMetric
    cases agg with
    | nil => simp
    | cons p t =>
      rw [if_neg (by simp)]
      exact truncQ_nonneg (lookupD_nonneg h)
  · intro r hr
    unfold joinAllMetrics at hr
    rw [List.mem_map] at hr
    obtain ⟨x, _, rfl⟩ := hr
    exact ⟨rfl, rfl, rfl, rfl, rfl⟩

theorem consolidated_metrics_integer_default_zero_witness :
    joinMetric [("S2", 5)] "S1" = 0 ∧ (0 : ℤ) ≤ joinMetric [("S1", 3)] "S1" :=
  ⟨(consolidated_metrics_integer_default_zero [] [] [] [] [] [] "S1").1 _ (by decide),
   (consolidated_metrics_integer_default_zero [] [] [] [] [] [] "S1").2.2.1 _ (by decide)⟩

/-! ## C10 — site rollup drops null sites -/

theorem sum_indicator_nodup (sites : List String) (x : String)
    (hnd : sites.Nodup) (hx : x ∈ sites) :
    ((sites.map (fun site => if x = site then (1 : ℕ) else 0)).sum) = 1 := by
  induction sites with
  | nil => cases hx
  | cons a t ih =>
    rw [List.nodup_cons] at hnd
    rcases List.mem_cons.mp hx with rfl | hmem
    · simp only [List.map_cons, List.sum_cons, if_pos rfl]
      have hz : (t.map (fun site => if x = site then (1 : ℕ) else 0)).sum = 0 := by
        apply List.sum_eq_zero
        intro y hy
        rw [List.mem_map] at hy
        obtain ⟨site, hs, rfl⟩ := hy
        rw [if_neg]
        intro h
        exact hnd.1 (h ▸ hs)
      rw [hz]
      simp
    · have hax : ¬ x = a := by
        intro h
        exact hnd.1 (h ▸ hmem)
      simp only [List.map_cons, List.sum_cons, if_neg hax, Nat.zero_add]
      exact ih hnd.2 hmem

theorem sum_group_lengths (sites : List String) (rows : List SubjectMetricsRow)
    (hnd : sites.Nodup)
    (hcov : ∀ r ∈ rows, ∀ x, r.site_id = some x → x ∈ sites) :
    ((sites.map (fun site =>
        (rows.filter (fun r => r.site_id == some site)).length)).sum)
      = (rows.filter (fun r => r.site_id.isSome)).length := by
  induction rows with
  | nil => simp
  | cons r rs ih =>
    have hcov' : ∀ t ∈ rs, ∀ x, t.site_id = some x → x ∈ sites :=
      fun t ht => hcov t (List.mem_cons_of_mem _ ht)
    cases hsite : r.site_id with
    | none =>
      have h1 : ∀ site ∈ sites,
          (List.filter (fun t => t.site_id == some site) (r :: rs)).length
            = (List.filter (fun t => t.site_id == some site) rs).length := by
        intro site _
        rw [List.filter_cons_of_neg (by simp [hsite])]
      rw [List.map_congr_left h1]
      rw [List.filter_cons_of_neg (by simp [hsite])]
      exact ih hcov'
    | some x =>
      have hx : x ∈ sites := hcov r (List.mem_cons_self _ _) x hsite
      have h1 : ∀ site ∈ sites,
          (List.filter (fun t => t.site_id == some site) (r :: rs)).length
            = (if x = site then 1 else 0)
              + (List.filter (fun t => t.site_id == some site) rs).length := by
        intro site _
        by_cases h : x = site
        · subst h
          rw [List.filter_cons_of_pos (by simp [hsite])]
          simp [Nat.add_comm]
        · rw [List.filter_cons_of_neg (by simp [hsite, h])]
          simp [h]
      rw [List.map_congr_left h1, List.sum_map_add, sum_indicator_nodup sites x hnd hx]
      rw [List.filter_cons_of_pos (by simp [hsite])]
      rw [List.length_cons, ih hcov']
      omega

/-- C10: the site rollup groups on `site_id` with pandas `groupby`
semantics, which drops null keys: subjects with no site contribute to no
site record, the site-table subject counts sum to the number of subjects
with a non-null site (strictly fewer than all subjects as soon as one
site_id is null), and the site table is empty when every subject's
site_id is null. -/
theorem site_rollup_drops_null_sites (rows : List SubjectMetricsRow) :
    (((calculate_site_performance_metrics rows).map SiteMetricsRow.subject_count).sum
        = (rows.filter (fun r => r.site_id.isSome)).length) ∧
    ((∃ r ∈ rows, r.site_id = none) →
      ((calculate_site_performance_metrics rows).map SiteMetricsRow.subject_count).sum
        < rows.length) ∧
    ((∀ r ∈ rows, r.site_id = none) → calculate_site_performance_metrics rows = []) := by
  have hmain :
      ((calculate_site_performance_metrics rows).map SiteMetricsRow.subject_count).sum
        = (rows.filter (fun r => r.site_id.isSome)).length := by
    unfold calculate_site_performance_metrics
    rw [List.map_map]
    exact sum_group_lengths _ rows (nodup_dedupFirst _)
      (fun r hr x hx => (mem_dedupFirst x _).mpr (List.mem_filterMap.mpr ⟨r, hr, hx⟩))
  refine ⟨hmain, ?_, ?_⟩
  · rintro ⟨r, hr, hnone⟩
    rw [hmain]
    rw [List.length_filter_lt_length_iff_exists]
    exact ⟨r, hr, by simp [hnone]⟩
  · intro hall
    unfold calculate_site_performance_metrics
    have : rows.filterMap SubjectMetricsRow.site_id = [] :=
      List.filterMap_eq_nil_iff.mpr hall
    rw [this]
    rfl

theorem site_rollup_drops_null_sites_witness :
    ((calculate_site_performance_metrics
        [⟨"S1", some "A", 0, 0, 0⟩, ⟨"S2", none, 1, 2, 3⟩]).map
      SiteMetricsRow.subject_count).sum
        < ([⟨"S1", some "A", 0, 0, 0⟩, ⟨"S2", none, 1, 2, 3⟩] :
            List SubjectMetricsRow).length ∧
    calculate_site_performance_metrics [⟨"S3", none, 4, 5, 6⟩] = [] :=
  ⟨(site_rollup_drops_null_sites _).2.1 ⟨⟨"S2", none, 1, 2, 3⟩, by decide, rfl⟩,
   (site_rollup_drops_null_sites _).2.2 (by decide)⟩

/-! ## C6 / C7 — missing-pages aggregation -/

theorem groupCountQ_ne_nil {l : List String} (h : l ≠ []) : groupCountQ l ≠ [] := by
  unfold groupCountQ
  intro hc
  rw [List.map_eq_nil_iff] at hc
  exact dedupFirst_ne_nil h hc

theorem dueFilter_nil (rows : List PageRow) : dueFilter [] rows = [] := by
  unfold dueFilter
  apply List.filter_eq_nil_iff.mpr
  intro a _
  simp

/-- When the due filter leaves nothing (in particular when the due list is
empty and the filter branch is not even entered), the aggregate is the
inactivation-only-filtered count table. -/
theorem aggMissingPages_fallback (rows : List PageRow) (inact : List String)
    (due : List (String × String))
    (hfil : dueFilter due (inactivationExcluded true inact rows) = []) :
    aggMissingPages rows true true inact due =
      if inactivationExcluded true inact rows = [] then []
      else groupCountQ ((inactivationExcluded true inact rows).map PageRow.subject) := by
  simp only [aggMissingPages]
  split_ifs <;> simp_all [List.isEmpty_iff]

/-- When the due filter keeps at least one row, the aggregate counts the
filtered rows. -/
theorem aggMissingPages_filtered (rows : List PageRow) (inact : List String)
    (due : List (String × String))
    (hdue : due ≠ [])
    (hfil : dueFilter due (inactivationExcluded true inact rows) ≠ []) :
    aggMissingPages rows true true inact due =
      groupCountQ ((dueFilter due (inactivationExcluded true inact rows)).map PageRow.subject) := by
  simp only [aggMissingPages]
  split_ifs <;> simp_all [List.isEmpty_iff]

/-- C6: if the due-visit filter would eliminate every row of an otherwise
non-empty inactivation-excluded row set, `_aggregate_missing_pages` falls
back to the inactivation-only-filtered per-subject counts instead of
reporting zero; in every case a non-empty pre-filter set yields a
non-empty aggregate (the due-visit filter alone never zeroes the result
out). -/
theorem missing_pages_due_filter_fallback (rows : List PageRow) (inact : List String)
    (due : List (String × String))
    (hpre : inactivationExcluded true inact rows ≠ []) :
    aggMissingPages rows true true inact due ≠ [] ∧
    (dueFilter due (inactivationExcluded true inact rows) = [] →
      aggMissingPages rows true true inact due =
        groupCountQ ((inactivationExcluded true inact rows).map PageRow.subject)) := by
  have hmap : (inactivationExcluded true inact rows).map PageRow.subject ≠ [] := by
    intro hc
    rw [List.map_eq_nil_iff] at hc
    exact hpre hc
  constructor
  · by_cases hdue : due = []
    · rw [aggMissingPages_fallback rows inact due (by rw [hdue, dueFilter_nil]), if_neg hpre]
      exact groupCountQ_ne_nil hmap
    · by_cases hfil : dueFilter due (inactivationExcluded true inact rows) = []
      · rw [aggMissingPages_fallback rows inact due hfil, if_neg hpre]
        exact groupCountQ_ne_nil hmap
      · rw [aggMissingPages_filtered rows inact due hdue hfil]
        refine groupCountQ_ne_nil ?_
        intro hc
        rw [List.map_eq_nil_iff] at hc
        exact hfil hc
  · intro hfil
    rw [aggMissingPages_fallback rows inact due hfil, if_neg hpre]

theorem missing_pages_due_filter_fallback_witness :
    inactivationExcluded true [] [⟨"S1", "V1", "F1"⟩] ≠ [] ∧
    aggMissingPages [⟨"S1", "V1", "F1"⟩] true true [] [("S1", "V2")] =
      groupCountQ ((inactivationExcluded true [] [⟨"S1", "V1", "F1"⟩]).map PageRow.subject) :=
  ⟨by decide, (missing_pages_due_filter_fallback _ _ _ (by decide)).2 (by decide)⟩

/-- C7: a missing-pages row whose form/folder identifier is in the
inactivated-forms exclusion set contributes to no subject's count: deleting
all such rows from the report leaves the aggregate unchanged, on the
normal path and on the due-filter fallback path alike (the fallback
re-applies the inactivation exclusion after reloading). -/
theorem missing_pages_excludes_inactivated (rows : List PageRow) (hasVisitCol : Bool)
    (inact : List String) (due : List (String × String)) :
    aggMissingPages rows true hasVisitCol inact due =
      aggMissingPages (rows.filter (fun r => !(inact.contains r.form))) true hasVisitCol inact due := by
  have hpre : inactivationExcluded true inact (rows.filter (fun r => !(inact.contains r.form)))
      = inactivationExcluded true inact rows := by
    unfold inactivationExcluded
    by_cases hi : inact = []
    · rw [if_neg (by simp [hi]), if_neg (by simp [hi])]
      apply List.filter_eq_self.mpr
      intro a _
      simp [hi]
    · rw [if_pos (by simp [List.isEmpty_iff, hi]), if_pos (by simp [List.isEmpty_iff, hi])]
      rw [List.filter_filter]
      apply List.filter_congr
      intro a _
      exact Bool.and_self _
  unfold aggMissingPages
  rw [hpre]

/-! ## C8 — open-queries aggregation -/

theorem mem_init_foldl (aggs : List (List (String × ℚ))) (init : List String)
    (x : String) (hx : x ∈ init) :
    x ∈ aggs.foldl (fun acc ag => acc ++ ag.map Prod.fst) init := by
  induction aggs generalizing init with
  | nil => exact hx
  | cons b t ih => exact ih _ (List.mem_append_left _ hx)

theorem mem_foldl_append_keys {ag : List (String × ℚ)} {aggs : List (List (String × ℚ))}
    (hag : ag ∈ aggs) {p : String × ℚ} (hp : p ∈ ag) (init : List String) :
    p.1 ∈ aggs.foldl (fun acc bg => acc ++ bg.map Prod.fst) init := by
  induction aggs generalizing init with
  | nil => cases hag
  | cons b t ih =>
    rcases List.mem_cons.mp hag with rfl | hag'
    · exact mem_init_foldl t _ _ (List.mem_append_right _ (List.mem_map.mpr ⟨p, hp, rfl⟩))
    · exact ih hag' _

theorem lookupD_combineQueries (aggs : List (List (String × ℚ))) (s : String) :
    lookupD (combineQueries aggs) s = (aggs.map (fun a => lookupD a s)).sum := by
  cases aggs with
  | nil => simp [combineQueries, lookupD]
  | cons a rest =>
    simp only [combineQueries]
    rw [lookupD_map_self]
    by_cases hs : s ∈ dedupFirst ((a :: rest).foldl (fun acc ag => acc ++ ag.map Prod.fst) [])
    · rw [if_pos hs]
    · rw [if_neg hs]
      symm
      apply List.sum_eq_zero
      intro x hx
      rw [List.mem_map] at hx
      obtain ⟨ag, hag, rfl⟩ := hx
      apply lookupD_eq_zero_of_not_mem
      intro p hp hps
      apply hs
      rw [mem_dedupFirst]
      exact hps ▸ mem_foldl_append_keys hag hp []

theorem lookupD_edrrAgg (hc : Bool) (rows : List EdrrRow) (s : String) :
    lookupD (edrrAgg hc rows) s = edrrContrib (some (hc, rows)) s := by
  cases hc with
  | false =>
    simp only [edrrAgg, edrrContrib]
    rw [if_neg (by simp)]
    exact lookupD_groupCountQ _ s
  | true =>
    simp only [edrrAgg, edrrContrib]
    rw [if_pos trivial, lookupD_map_self]
    by_cases hs : s ∈ dedupFirst (rows.map EdrrRow.subject)
    · rw [if_pos hs]
    · rw [if_neg hs]
      have hfil : rows.filter (fun r => r.subject == s) = [] := by
        apply List.filter_eq_nil_iff.mpr
        intro r hr hrs
        apply hs
        rw [mem_dedupFirst]
        exact List.mem_map.mpr ⟨r, hr, by simpa using hrs⟩
      rw [hfil]
      rfl

theorem coding_queries_sum (coding : List (List CodingRow)) (s : String) :
    (((coding.filterMap (fun f =>
        let uncoded := f.filter (fun r => !(r.codingStatus == "Coded Term"))
        if uncoded.isEmpty then none
        else some (groupCountQ (uncoded.map CodingRow.subject)))).map
      (fun ag => lookupD ag s)).sum) = codingContrib coding s := by
  induction coding with
  | nil => simp [codingContrib]
  | cons f t ih =>
    simp only [List.filterMap_cons, codingContrib, List.map_cons, List.sum_cons] at ih ⊢
    by_cases hu : (f.filter (fun r => !(r.codingStatus == "Coded Term"))).isEmpty
    · rw [if_pos hu]
      rw [List.isEmpty_iff] at hu
      rw [hu]
      simp only [List.map_nil, List.count_nil, Nat.cast_zero, zero_add]
      exact ih
    · rw [if_neg hu]
      simp only [List.map_cons, List.sum_cons]
      rw [lookupD_groupCountQ, ih]

/-- C8: for every subject, `open_queries` is the sum of the three
independently aggregated sources — EDRR issues (explicit count column if
present, else row count), SAE-dashboard row count, and the number of coding
rows whose status is not `"Coded Term"`; a subject appearing in no source
gets 0; and a concrete coding report with 3 terms of which exactly 1 is
`"Coded Term"` contributes exactly 2. -/
theorem open_queries_sum_of_sources :
    (∀ (edrr : Option (Bool × List EdrrRow)) (sae : Option (List String))
        (coding : List (List CodingRow)) (s : String),
        lookupD (aggOpenQueries edrr sae coding) s =
          edrrContrib edrr s + saeContrib sae s + codingContrib coding s)
    ∧ (∀ (edrr : Option (Bool × List EdrrRow)) (sae : Option (List String))
        (coding : List (List CodingRow)) (s : String),
        (∀ hc rows, edrr = some (hc, rows) → s ∉ rows.map EdrrRow.subject) →
        (∀ subs, sae = some subs → s ∉ subs) →
        (∀ f ∈ coding, s ∉ f.map CodingRow.subject) →
        lookupD (aggOpenQueries edrr sae coding) s = 0)
    ∧ codingContrib [[⟨"S1", "Coded Term"⟩, ⟨"S1", "Pending"⟩, ⟨"S1", "Uncoded"⟩]] "S1" = 2
    ∧ lookupD (aggOpenQueries none none
        [[⟨"S1", "Coded Term"⟩, ⟨"S1", "Pending"⟩, ⟨"S1", "Uncoded"⟩]]) "S1" = 2 := by
  have hsum : ∀ (edrr : Option (Bool × List EdrrRow)) (sae : Option (List String))
      (coding : List (List CodingRow)) (s : String),
      lookupD (aggOpenQueries edrr sae coding) s =
        edrrContrib edrr s + saeContrib sae s + codingContrib coding s := by
    intro edrr sae coding s
    simp only [aggOpenQueries]
    rw [lookupD_combineQueries, List.map_append, List.map_append,
      List.sum_append, List.sum_append, coding_queries_sum]
    congr 1
    congr 1
    · cases edrr with
      | none => simp [edrrContrib]
      | some p =>
        obtain ⟨hc, rows⟩ := p
        simp only [List.map_cons, List.map_nil, List.sum_cons, List.sum_nil, add_zero]
        exact lookupD_edrrAgg hc rows s
    · cases sae with
      | none => simp [saeContrib]
      | some subs =>
        simp only [List.map_cons, List.map_nil, List.sum_cons, List.sum_nil, add_zero]
        simp only [saeContrib]
        exact lookupD_groupCountQ subs s
  refine ⟨hsum, ?_, ?_, ?_⟩
  · intro edrr sae coding s h1 h2 h3
    rw [hsum]
    have e1 : edrrContrib edrr s = 0 := by
      cases edrr with
      | none => rfl
      | some p =>
        obtain ⟨hc, rows⟩ := p
        have habs := h1 hc rows rfl
        cases hc with
        | true =>
          simp only [edrrContrib]
          have hfil : rows.filter (fun r => r.subject == s) = [] := by
            apply List.filter_eq_nil_iff.mpr
            intro r hr hrs
            exact habs (List.mem_map.mpr ⟨r, hr, by simpa using hrs⟩)
          rw [hfil]
          rfl
        | false =>
          simp only [edrrContrib]
          rw [List.count_eq_zero.mpr habs]
          rfl
    have e2 : saeContrib sae s = 0 := by
      cases sae with
      | none => rfl
      | some subs =>
        simp only [saeContrib]
        rw [List.count_eq_zero.mpr (h2 subs rfl)]
        rfl
    have e3 : codingContrib coding s = 0 := by
      unfold codingContrib
      apply List.sum_eq_zero
      intro x hx
      rw [List.mem_map] at hx
      obtain ⟨f, hf, rfl⟩ := hx
      have : s ∉ (f.filter (fun r => !(r.codingStatus == "Coded Term"))).map CodingRow.subject := by
        intro hmem
        rw [List.mem_map] at hmem
        obtain ⟨r, hr, rfl⟩ := hmem
        exact h3 f hf (List.mem_map.mpr ⟨r, List.mem_of_mem_filter hr, rfl⟩)
      rw [List.count_eq_zero.mpr this]
      rfl
    rw [e1, e2, e3]
    norm_num
  · have hc : ((([⟨"S1", "Coded Term"⟩, ⟨"S1", "Pending"⟩, ⟨"S1", "Uncoded"⟩] :
        List CodingRow).filter (fun r => !(r.codingStatus == "Coded Term"))).map
        CodingRow.subject).count "S1" = 2 := rfl
    simp only [codingContrib, List.map_cons, List.map_nil, List.sum_cons, List.sum_nil, hc]
    norm_num
  · rw [hsum]
    have hc : ((([⟨"S1", "Coded Term"⟩, ⟨"S1", "Pending"⟩, ⟨"S1", "Uncoded"⟩] :
        List CodingRow).filter (fun r => !(r.codingStatus == "Coded Term"))).map
        CodingRow.subject).count "S1" = 2 := rfl
    simp only [edrrContrib, saeContrib, codingContrib, List.map_cons, List.map_nil,
      List.sum_cons, List.sum_nil, hc]
    norm_num

theorem open_queries_sum_of_sources_witness :
    lookupD (aggOpenQueries (some (false, [⟨"S2", none⟩])) (some ["S2"])
        [[⟨"S2", "Pending"⟩]]) "S1" = 0 :=
  open_queries_sum_of_sources.2.1 _ _ _ "S1"
    (by intro hc rows h; cases h; decide)
    (by intro subs h; cases h; decide)
    (by intro f hf; rw [List.mem_singleton] at hf; subst hf; decide)

/-! ## C3 — DQI gracefully-degrading weighted score -/

theorem weightFor_pos (c : String) {n : ℚ} (hn : 0 < n) : 0 < weightFor c n := by
  unfold weightFor
  cases hf : DQI_WEIGHTS.find? (fun p => p.1 == c) with
  | none => simpa using one_div_pos.mpr hn
  | some p =>
    have hp := List.mem_of_find?_eq_some hf
    have hpos : 0 < p.2 := by
      fin_cases hp <;> norm_num
    simpa using hpos

theorem total_weight_pos (scores : List (String × ℚ)) (h : scores ≠ []) :
    0 < (scores.map (fun p => weightFor p.1 (scores.length : ℚ))).sum := by
  apply List.sum_pos
  · intro x hx
    rw [List.mem_map] at hx
    obtain ⟨p, hp, rfl⟩ := hx
    apply weightFor_pos
    exact_mod_cast List.length_pos.mpr h
  · simpa using h

theorem dqi_score_none_iff (scores : List (String × ℚ)) :
    calculate_dqi_score scores = none ↔ scores = [] := by
  simp only [calculate_dqi_score]
  by_cases h : scores = []
  · subst h; simp
  · rw [if_neg (by simpa [List.isEmpty_iff] using h)]
    rw [if_neg (total_weight_pos scores h).ne']
    simp [h]

theorem dqi_score_formula (scores : List (String × ℚ)) (h : scores ≠ []) :
    calculate_dqi_score scores =
      some (round2 (((scores.map (fun p => p.2 * weightFor p.1 (scores.length : ℚ))).sum) /
        ((scores.map (fun p => weightFor p.1 (scores.length : ℚ))).sum))) := by
  simp only [calculate_dqi_score]
  rw [if_neg (by simpa [List.isEmpty_iff] using h)]
  rw [if_neg (total_weight_pos scores h).ne']
  rw [if_pos (total_weight_pos scores h)]

theorem round2_bounds {x : ℚ} (h0 : 0 ≤ x) (h100 : x ≤ 100) :
    0 ≤ round2 x ∧ round2 x ≤ 100 := by
  unfold round2
  constructor
  · apply div_nonneg _ (by norm_num)
    have hr : (0 : ℤ) ≤ round (x * 100) := by
      rw [round_eq]
      apply Int.le_floor.mpr
      push_cast
      linarith
    exact_mod_cast hr
  · rw [div_le_iff₀ (by norm_num : (0:ℚ) < 100)]
    have hr : round (x * 100) ≤ 10000 := by
      rw [round_eq]
      have h1 : ((⌊x * 100 + 1/2⌋ : ℤ) : ℚ) ≤ x * 100 + 1/2 := Int.floor_le _
      have h2 : ((⌊x * 100 + 1/2⌋ : ℤ) : ℚ) < 10001 := by linarith
      have h3 : (⌊x * 100 + 1/2⌋ : ℤ) < 10001 := by exact_mod_cast h2
      omega
    calc ((round (x * 100) : ℤ) : ℚ) ≤ ((10000 : ℤ) : ℚ) := by exact_mod_cast hr
      _ = 100 * 100 := by norm_num

theorem score_aux_bounds {a : ℚ} (ha : a ≤ 100) : 0 ≤ max 0 a ∧ max 0 a ≤ 100 :=
  ⟨le_max_left _ _, max_le (by norm_num) ha⟩

theorem component_scores_bounded (r : DqiRow) (hb : DqiRowBounded r) :
    ∀ p ∈ calculate_component_scores r, 0 ≤ p.2 ∧ p.2 ≤ 100 := by
  obtain ⟨h1, h2, h3, h4, h5, h6, h7, h8⟩ := hb
  have hg1 : ∀ p ∈ (match r.open_safety_issues with
      | some v => [("safety_issues", max 0 (100 - v * 20))]
      | none => ([] : List (String × ℚ))), 0 ≤ p.2 ∧ p.2 ≤ 100 := by
    cases hosi : r.open_safety_issues with
    | none => intro p hp; cases hp
    | some v =>
      intro p hp
      rw [List.mem_singleton] at hp
      subst hp
      have hv := mul_nonneg (h1 v hosi) (by norm_num : (0:ℚ) ≤ 20)
      exact score_aux_bounds (by linarith)
  have hg2 : ∀ p ∈ (match r.pct_missing_visits, r.missing_visits with
      | some pv, _ => [("missing_visits", max 0 (100 - pv))]
      | none, some v => [("missing_visits", max 0 (100 - min 100 (v * 5)))]
      | none, none => ([] : List (String × ℚ))), 0 ≤ p.2 ∧ p.2 ≤ 100 := by
    cases hpct : r.pct_missing_visits with
    | some pv =>
      intro p hp
      rw [List.mem_singleton] at hp
      subst hp
      exact score_aux_bounds (by have := h2 pv hpct; linarith)
    | none =>
      cases hmv : r.missing_visits with
      | none => intro p hp; cases hp
      | some v =>
        intro p hp
        rw [List.mem_singleton] at hp
        subst hp
        have hv : 0 ≤ min 100 (v * 5) :=
          le_min (by norm_num) (mul_nonneg (h3 v hmv) (by norm_num))
        exact score_aux_bounds (by linarith)
  have hg3 : ∀ p ∈ (match r.open_queries with
      | some v => [("open_queries", max 0 (100 - min 100 (v * 10)))]
      | none => ([] : List (String × ℚ))), 0 ≤ p.2 ∧ p.2 ≤ 100 := by
    cases hoq : r.open_queries with
    | none => intro p hp; cases hp
    | some v =>
      intro p hp
      rw [List.mem_singleton] at hp
      subst hp
      have hv : 0 ≤ min 100 (v * 10) :=
        le_min (by norm_num) (mul_nonneg (h4 v hoq) (by norm_num))
      exact score_aux_bounds (by linarith)
  have hg4 : ∀ p ∈ (match r.pct_missing_pages, r.missing_pages with
      | some pv, _ => [("missing_pages", max 0 (100 - pv))]
      | none, some v => [("missing_pages", max 0 (100 - min 100 (v * 2)))]
      | none, none => ([] : List (String × ℚ))), 0 ≤ p.2 ∧ p.2 ≤ 100 := by
    cases hpct : r.pct_missing_pages with
    | some pv =>
      intro p hp
      rw [List.mem_singleton] at hp
      subst hp
      exact score_aux_bounds (by have := h5 pv hpct; linarith)
    | none =>
      cases hmp : r.missing_pages with
      | none => intro p hp; cases hp
      | some v =>
        intro p hp
        rw [List.mem_singleton] at hp
        subst hp
        have hv : 0 ≤ min 100 (v * 2) :=
          le_min (by norm_num) (mul_nonneg (h6 v hmp) (by norm_num))
        exact score_aux_bounds (by linarith)
  have hg5 : ∀ p ∈ (match r.sdv_complete with
      | some b => [("sdv_incomplete", if b then (100:ℚ) else 50)]
      | none => ([] : List (String × ℚ))), 0 ≤ p.2 ∧ p.2 ≤ 100 := by
    cases hs : r.sdv_complete with
    | none => intro p hp; cases hp
    | some b =>
      intro p hp
      rw [List.mem_singleton] at hp
      subst hp
      cases b <;> norm_num
  have hg6 : ∀ p ∈ (match r.completeness_score with
      | some v => [("completeness", v)]
      | none => ([] : List (String × ℚ))), 0 ≤ p.2 ∧ p.2 ≤ 100 := by
    cases hc : r.completeness_score with
    | none => intro p hp; cases hp
    | some v =>
      intro p hp
      rw [List.mem_singleton] at hp
      subst hp
      exact h7 v hc
  have hg7 : ∀ p ∈ (match r.query_resolution_rate with
      | some v => [("query_resolution", v)]
      | none => ([] : List (String × ℚ))), 0 ≤ p.2 ∧ p.2 ≤ 100 := by
    cases hc : r.query_resolution_rate with
    | none => intro p hp; cases hp
    | some v =>
      intro p hp
      rw [List.mem_singleton] at hp
      subst hp
      exact h8 v hc
  intro p hp
  unfold calculate_component_scores at hp
  simp only [List.mem_append] at hp
  rcases hp with ((((((hp | hp) | hp) | hp) | hp) | hp) | hp)
  · exact hg1 p hp
  · exact hg2 p hp
  · exact hg3 p hp
  · exact hg4 p hp
  · exact hg5 p hp
  · exact hg6 p hp
  · exact hg7 p hp

theorem dqi_in_range (scores : List (String × ℚ)) (h : scores ≠ [])
    (hb : ∀ p ∈ scores, 0 ≤ p.2 ∧ p.2 ≤ 100) :
    ∀ q, calculate_dqi_score scores = some q → 0 ≤ q ∧ q ≤ 100 := by
  intro q hq
  rw [dqi_score_formula scores h] at hq
  injection hq with hq
  subst hq
  have hn : (0:ℚ) < (scores.length : ℚ) := by exact_mod_cast List.length_pos.mpr h
  have htwpos : 0 < (scores.map (fun p => weightFor p.1 (scores.length : ℚ))).sum :=
    total_weight_pos scores h
  have hts0 : 0 ≤ (scores.map (fun p => p.2 * weightFor p.1 (scores.length : ℚ))).sum := by
    apply List.sum_nonneg
    intro x hx
    rw [List.mem_map] at hx
    obtain ⟨p, hp, rfl⟩ := hx
    exact mul_nonneg (hb p hp).1 (weightFor_pos _ hn).le
  have htsle : (scores.map (fun p => p.2 * weightFor p.1 (scores.length : ℚ))).sum
      ≤ 100 * (scores.map (fun p => weightFor p.1 (scores.length : ℚ))).sum := by
    rw [← List.sum_map_mul_left]
    apply List.sum_le_sum
    intro p hp
    exact mul_le_mul_of_nonneg_right (hb p hp).2 (weightFor_pos _ hn).le
  apply round2_bounds
  · exact div_nonneg hts0 htwpos.le
  · rw [div_le_iff₀ htwpos]
    linarith

/-- C3: the DQI is undefined (`none`) iff the subject's set of available
component scores is empty; on a non-empty component set it equals the
weighted average with the configured weights re-normalized over only the
present components (unknown components get the uniform default weight),
rounded to 2 decimals; and for rows satisfying the upstream bounds
(non-negative raw metrics, percentage-valued pass-through components) every
defined DQI lies in [0, 100]. -/
theorem dqi_undefined_iff_no_components :
    (∀ scores : List (String × ℚ), calculate_dqi_score scores = none ↔ scores = [])
    ∧ (∀ scores : List (String × ℚ), scores ≠ [] →
        calculate_dqi_score scores =
          some (round2 (((scores.map (fun p => p.2 * weightFor p.1 (scores.length : ℚ))).sum) /
            ((scores.map (fun p => weightFor p.1 (scores.length : ℚ))).sum))))
    ∧ (∀ r : DqiRow, DqiRowBounded r → ∀ q,
        calculate_dqi_score (calculate_component_scores r) = some q →
          0 ≤ q ∧ q ≤ 100) := by
  refine ⟨dqi_score_none_iff, dqi_score_formula, ?_⟩
  intro r hb q hq
  by_cases h : calculate_component_scores r = []
  · rw [h, (dqi_score_none_iff []).mpr rfl] at hq
    cases hq
  · exact dqi_in_range _ h (component_scores_bounded r hb) q hq

theorem dqi_undefined_iff_no_components_witness :
    DqiRowBounded ⟨some 0, none, none, none, none, none, none, none, none⟩ ∧
    ∃ q, calculate_dqi_score (calculate_component_scores
        ⟨some 0, none, none, none, none, none, none, none, none⟩) = some q ∧
      0 ≤ q ∧ q ≤ 100 := by
  have hbw : DqiRowBounded ⟨some 0, none, none, none, none, none, none, none, none⟩ := by
    refine ⟨?_, ?_, ?_, ?_, ?_, ?_, ?_, ?_⟩ <;> intro v h
    · cases h
      norm_num
    all_goals cases h
  have hne : calculate_component_scores
      ⟨some 0, none, none, none, none, none, none, none, none⟩ ≠ [] := by
    simp [calculate_component_scores]
  refine ⟨hbw, ?_⟩
  obtain ⟨q, hq⟩ : ∃ q, calculate_dqi_score (calculate_component_scores
      ⟨some 0, none, none, none, none, none, none, none, none⟩) = some q := by
    cases hd : calculate_dqi_score (calculate_component_scores
        ⟨some 0, none, none, none, none, none, none, none, none⟩) with
    | none => exact absurd ((dqi_score_none_iff _).mp hd) hne
    | some q => exact ⟨q, rfl⟩
  exact ⟨q, hq, dqi_undefined_iff_no_components.2.2 _ hbw q hq⟩

/-! ## C5 — two-pass column-name standardization -/

theorem optOr_none_right (a : Option String) : optOr a none = a := by
  cases a <;> rfl

theorem lookupName_nil (col : String) : lookupName [] col = none := rfl

theorem lookupName_append_single (m : List (String × String)) (c sn col : String) :
    lookupName (m ++ [(c, sn)]) col =
      optOr (lookupName m col) (if col = c then some sn else none) := by
  unfold lookupName
  rw [List.find?_append]
  cases hf : m.find? (fun q => q.1 == col) with
  | some p => rfl
  | none =>
    by_cases hc : col = c
    · subst hc
      rw [List.find?_cons_of_pos _ (by simp), if_pos rfl]
      rfl
    · rw [List.find?_cons_of_neg _ (by simp only [beq_iff_eq]; exact fun h => hc h.symm), if_neg hc]
      rfl

theorem lookupName_isSome_iff (m : List (String × String)) (col : String) :
    (lookupName m col).isSome = m.any (fun q => q.1 == col) := by
  unfold lookupName
  cases hf : m.find? (fun q => q.1 == col) with
  | none =>
    rw [List.find?_eq_none] at hf
    have h0 : (Option.map Prod.snd (none : Option (String × String))).isSome = false := rfl
    rw [h0]
    symm
    rw [List.any_eq_false]
    exact hf
  | some p =>
    have hp := List.find?_some hf
    have hm := List.mem_of_find?_eq_some hf
    have h1 : (Option.map Prod.snd (some p)).isSome = true := rfl
    rw [h1]
    symm
    rw [List.any_eq_true]
    exact ⟨p, hm, hp⟩

theorem lookupName_innerFold (hit : String → List String → Bool) (sn : String)
    (vars : List String) (cols : List String) (init : List (String × String)) (col : String) :
    lookupName (cols.foldl (passStep hit sn vars) init) col =
      optOr (lookupName init col)
        (if col ∈ cols ∧ hit col vars = true then some sn else none) := by
  induction cols generalizing init with
  | nil =>
    rw [List.foldl_nil, if_neg (fun h => (List.not_mem_nil col) h.1)]
    exact (optOr_none_right _).symm
  | cons c cs ih =>
    rw [List.foldl_cons, ih]
    unfold passStep
    by_cases hkey : init.any (fun q => q.1 == c) = true
    · rw [if_pos hkey]
      by_cases hc : col = c
      · subst hc
        have hsome : (lookupName init col).isSome := by
          rw [lookupName_isSome_iff]; exact hkey
        obtain ⟨v, hv⟩ := Option.isSome_iff_exists.mp hsome
        rw [hv]
        rfl
      · have hiff : (col ∈ c :: cs ∧ hit col vars = true) ↔
            (col ∈ cs ∧ hit col vars = true) := by
          simp [List.mem_cons, hc]
        rw [if_congr hiff rfl rfl]
    · rw [if_neg hkey]
      by_cases hhit : hit c vars = true
      · rw [if_pos hhit, lookupName_append_single]
        cases hli : lookupName init col with
        | some v => rfl
        | none =>
          by_cases hc : col = c
          · subst hc
            rw [if_pos rfl]
            have hmem : col ∈ col :: cs ∧ hit col vars = true :=
              ⟨List.mem_cons_self _ _, hhit⟩
            rw [if_pos hmem]
            rfl
          · rw [if_neg hc]
            have hiff : (col ∈ c :: cs ∧ hit col vars = true) ↔
                (col ∈ cs ∧ hit col vars = true) := by
              simp [List.mem_cons, hc]
            rw [if_congr hiff rfl rfl]
            rfl
      · rw [if_neg hhit]
        by_cases hc : col = c
        · subst hc
          rw [if_neg (fun h => hhit h.2), if_neg (fun h => hhit h.2)]
        · have hiff : (col ∈ c :: cs ∧ hit col vars = true) ↔
              (col ∈ cs ∧ hit col vars = true) := by
            simp [List.mem_cons, hc]
          rw [if_congr hiff rfl rfl]

theorem passFold_cons (hit : String → List String → Bool) (p : String × List String)
    (ps : List (String × List String)) (cols : List String)
    (init : List (String × String)) :
    passFold hit (p :: ps) cols init =
      passFold hit ps cols (cols.foldl (passStep hit p.1 p.2) init) := rfl

theorem lookupName_passFold (hit : String → List String → Bool)
    (table : List (String × List String)) (cols : List String)
    (init : List (String × String)) (col : String) :
    lookupName (passFold hit table cols init) col =
      optOr (lookupName init col)
        (if col ∈ cols then ((table.find? (fun p => hit col p.2)).map Prod.fst)
         else none) := by
  induction table generalizing init with
  | nil =>
    have h1 : passFold hit [] cols init = init := rfl
    rw [h1]
    have h3 : ((([] : List (String × List String)).find? (fun p => hit col p.2)).map Prod.fst
        : Option String) = none := rfl
    rw [h3, ite_self, optOr_none_right]
  | cons p ps ih =>
    rw [passFold_cons, ih, lookupName_innerFold]
    cases hli : lookupName init col with
    | some v => rfl
    | none =>
      by_cases hcol : col ∈ cols
      · by_cases hhit : hit col p.2 = true
        · rw [if_pos ⟨hcol, hhit⟩, if_pos hcol, if_pos hcol,
            @List.find?_cons_of_pos _ (fun q => hit col q.2) p ps hhit]
          rfl
        · rw [if_neg (fun h => hhit h.2), if_pos hcol, if_pos hcol,
            @List.find?_cons_of_neg _ (fun q => hit col q.2) p ps (by simpa using hhit)]
          rfl
      · rw [if_neg (fun h => hcol h.1), if_neg hcol, if_neg hcol]
        rfl

theorem keysNodup_passStep (hit : String → List String → Bool) (sn : String)
    (vars : List String) (acc : List (String × String)) (col : String)
    (h : (acc.map Prod.fst).Nodup) :
    ((passStep hit sn vars acc col).map Prod.fst).Nodup := by
  unfold passStep
  by_cases h1 : acc.any (fun q => q.1 == col) = true
  · rw [if_pos h1]; exact h
  · rw [if_neg h1]
    by_cases h2 : hit col vars = true
    · rw [if_pos h2, List.map_append, List.nodup_append]
      refine ⟨h, by simp, ?_⟩
      intro a ha hb
      simp only [List.map_cons, List.map_nil, List.mem_singleton] at hb
      subst hb
      rw [List.mem_map] at ha
      obtain ⟨q, hq, hq1⟩ := ha
      rw [Bool.not_eq_true, List.any_eq_false] at h1
      exact h1 q hq (by simp [hq1])
    · rw [if_neg h2]; exact h

theorem keysNodup_innerFold (hit : String → List String → Bool) (sn : String)
    (vars : List String) (cols : List String) (init : List (String × String))
    (h : (init.map Prod.fst).Nodup) :
    ((cols.foldl (passStep hit sn vars) init).map Prod.fst).Nodup := by
  induction cols generalizing init with
  | nil => exact h
  | cons c cs ih =>
    rw [List.foldl_cons]
    exact ih _ (keysNodup_passStep hit sn vars init c h)

theorem keysNodup_passFold (hit : String → List String → Bool)
    (table : List (String × List String)) (cols : List String)
    (init : List (String × String)) (h : (init.map Prod.fst).Nodup) :
    ((passFold hit table cols init).map Prod.fst).Nodup := by
  induction table generalizing init with
  | nil => exact h
  | cons p ps ih =>
    rw [passFold_cons]
    exact ih _ (keysNodup_innerFold hit p.1 p.2 cols init h)

/-- C5: the rename map built by `standardize_column_names` is exactly the
two-pass specification: each header maps to at most one canonical name
(the rename map's keys are pairwise distinct); a header contained in the
header set resolves to the first-declared canonical name with an exact
case-insensitive variant match, and — only if no canonical name at all
matches it exactly — to the first-declared canonical name having a variant
that is a complete substring of the header with length above the threshold
3; headers outside the set (and headers matching nothing) stay unmapped. -/
theorem column_standardization_two_pass (table : List (String × List String))
    (cols : List String) (col : String) :
    ((standardizeRenames table cols).map Prod.fst).Nodup ∧
    (col ∈ cols → lookupName (standardizeRenames table cols) col = resolveHeaderSpec table col) ∧
    (col ∉ cols → lookupName (standardizeRenames table cols) col = none) := by
  refine ⟨?_, ?_, ?_⟩
  · exact keysNodup_passFold subHit table cols _
      (keysNodup_passFold exactHit table cols [] (by simp))
  · intro hcol
    unfold standardizeRenames resolveHeaderSpec
    rw [lookupName_passFold, lookupName_passFold, lookupName_nil,
      if_pos hcol, if_pos hcol]
    cases hf : table.find? (fun p => exactHit col p.2) with
    | some p => rfl
    | none => rfl
  · intro hcol
    unfold standardizeRenames
    rw [lookupName_passFold, lookupName_passFold, lookupName_nil,
      if_neg hcol, if_neg hcol]
    rfl

theorem column_standardization_two_pass_witness :
    ("Subject" ∈ (["Subject", "xx Open Queries yy"] : List String)) ∧
    lookupName (standardize_column_names ["Subject", "xx Open Queries yy"]) "Subject" =
      resolveHeaderSpec COLUMN_MAPPINGS "Subject" ∧
    lookupName (standardize_column_names ["Subject", "xx Open Queries yy"])
        "xx Open Queries yy" = resolveHeaderSpec COLUMN_MAPPINGS "xx Open Queries yy" ∧
    resolveHeaderSpec COLUMN_MAPPINGS "Subject" = some "subject_id" ∧
    resolveHeaderSpec COLUMN_MAPPINGS "xx Open Queries yy" = some "open_queries" :=
  ⟨by decide,
   (column_standardization_two_pass COLUMN_MAPPINGS _ _).2.1 (by decide),
   (column_standardization_two_pass COLUMN_MAPPINGS _ _).2.1 (by decide),
   by decide, by decide⟩

end ClinicalFlow
